import Mathlib

/-!
Shallow embedding of the matrixbot monitoring subsystem
(src/matrixbot/monitors/login.py and src/matrixbot/monitors/download.py),
together with proofs of the specified properties.

The login monitor tails an auth log: it detects rotation by inode, reads
newly appended bytes, and classifies each line with an ordered list of
regular expressions.  The download monitor polls a remote status query for
each registered torrent and fires a completion callback once per torrent.
-/

namespace Matrixbot

/-!
Regular-expression engine.

login.py compiles four Python regexes and applies them with `.search`:
  ssh_success    : sshd\[\d+\]: Accepted .+ for (\S+) from (\S+) port (\d+)
  ssh_failed     : sshd\[\d+\]: Failed .+ for (?:invalid user )?(\S+) from (\S+) port (\d+)
  sudo_command   : sudo:\s+(\S+)\s+:.*COMMAND=(.+)
  session_opened : systemd-logind\[\d+\]: New session .+ of user (\S+)

The constructs these four patterns use are: literal text, `(?:lit)?`,
greedy one-or-more / zero-or-more of a character class, and capturing
greedy one-or-more.  The engine below implements exactly those with
Python semantics: leftmost search position, greedy quantifiers with
backtracking, `.` not matching a newline.  `RE.star` doubles as the
internal continuation state of `plus`, and `RE.cstar` as the internal
continuation state of `cplus` (carrying the reversed capture so far).

The matcher recurses on an explicit fuel so that it is structural and
computable by the kernel.  Every recursive call strictly decreases the
measure `s.length + sizeL rs`, so the wrapper's fuel of
`s.length + sizeL rs + 1` is never exhausted.
-/

inductive RE where
  | lit : List Char → RE
  | optLit : List Char → RE
  | plus : (Char → Bool) → RE
  | star : (Char → Bool) → RE
  | cplus : (Char → Bool) → RE
  | cstar : (Char → Bool) → List Char → RE

def sizeRE : RE → Nat
  | .lit l => l.length + 1
  | .optLit l => l.length + 2
  | .plus _ => 3
  | .star _ => 3
  | .cplus _ => 3
  | .cstar _ _ => 3

def sizeL (rs : List RE) : Nat := (rs.map sizeRE).sum

def matchF : Nat → List RE → List Char → Option (List (List Char))
  | 0, _, _ => none
  | _ + 1, [], _ => some []
  | f + 1, .lit l :: rs, s =>
    if l.isPrefixOf s then matchF f rs (s.drop l.length) else none
  | f + 1, .optLit l :: rs, s =>
    if l.isPrefixOf s then
      match matchF f rs (s.drop l.length) with
      | some caps => some caps
      | none => matchF f rs s
    else matchF f rs s
  | _ + 1, .plus _ :: _, [] => none
  | f + 1, .plus p :: rs, c :: s =>
    if p c then matchF f (.star p :: rs) s else none
  | f + 1, .star _ :: rs, [] => matchF f rs []
  | f + 1, .star p :: rs, c :: s =>
    if p c then
      match matchF f (.star p :: rs) s with
      | some caps => some caps
      | none => matchF f rs (c :: s)
    else matchF f rs (c :: s)
  | _ + 1, .cplus _ :: _, [] => none
  | f + 1, .cplus p :: rs, c :: s =>
    if p c then matchF f (.cstar p [c] :: rs) s else none
  | f + 1, .cstar _ acc :: rs, [] => (matchF f rs []).map (acc.reverse :: ·)
  | f + 1, .cstar p acc :: rs, c :: s =>
    if p c then
      match matchF f (.cstar p (c :: acc) :: rs) s with
      | some caps => some caps
      | none => (matchF f rs (c :: s)).map (acc.reverse :: ·)
    else (matchF f rs (c :: s)).map (acc.reverse :: ·)

/-- Match the regex sequence `rs` at the start of `s` (a trailing rest of
the input may remain unmatched, as with Python `re`); returns the list of
captured groups on success. -/
def matchSeq (rs : List RE) (s : List Char) : Option (List (List Char)) :=
  matchF (s.length + sizeL rs + 1) rs s

/-- Python `re.search`: try to match at each start position, leftmost first. -/
def reSearch (rs : List RE) : List Char → Option (List (List Char))
  | [] => matchSeq rs []
  | c :: s =>
    match matchSeq rs (c :: s) with
    | some caps => some caps
    | none => reSearch rs s

/-- Python `\d`. -/
def isDigitC (c : Char) : Bool := c.isDigit

/-- Python `\S`. -/
def isNonSpace (c : Char) : Bool := !c.isWhitespace

/-- Python `\s`. -/
def isSpaceC (c : Char) : Bool := c.isWhitespace

/-- Python `.` (does not match a newline). -/
def isDotC (c : Char) : Bool := c != '\n'

/-- login.py:34 `sshd\[\d+\]: Accepted .+ for (\S+) from (\S+) port (\d+)`. -/
def sshSuccessRE : List RE :=
  [.lit "sshd[".data, .plus isDigitC, .lit "]: Accepted ".data, .plus isDotC,
   .lit " for ".data, .cplus isNonSpace, .lit " from ".data, .cplus isNonSpace,
   .lit " port ".data, .cplus isDigitC]

/-- login.py:35 `sshd\[\d+\]: Failed .+ for (?:invalid user )?(\S+) from (\S+) port (\d+)`. -/
def sshFailedRE : List RE :=
  [.lit "sshd[".data, .plus isDigitC, .lit "]: Failed ".data, .plus isDotC,
   .lit " for ".data, .optLit "invalid user ".data, .cplus isNonSpace,
   .lit " from ".data, .cplus isNonSpace, .lit " port ".data, .cplus isDigitC]

/-- login.py:36 `sudo:\s+(\S+)\s+:.*COMMAND=(.+)`. -/
def sudoRE : List RE :=
  [.lit "sudo:".data, .plus isSpaceC, .cplus isNonSpace, .plus isSpaceC,
   .lit ":".data, .star isDotC, .lit "COMMAND=".data, .cplus isDotC]

/-- login.py:37 `systemd-logind\[\d+\]: New session .+ of user (\S+)`. -/
def sessionRE : List RE :=
  [.lit "systemd-logind[".data, .plus isDigitC, .lit "]: New session ".data,
   .plus isDotC, .lit " of user ".data, .cplus isNonSpace]

inductive EventKind where
  | ssh_login
  | ssh_failed
  | sudo_command
  | console_login
deriving DecidableEq, Repr

/-- One classified event, as passed to the login monitor's callback
(login.py:116-176).  The wall-clock timestamp field built by
`_extract_timestamp` is omitted from the embedding: it depends on the
current date, not on the monitored data. -/
structure LogEvent where
  kind : EventKind
  user : String
  ip : Option String
  port : Option String
  command : Option String
  status : Option String
deriving DecidableEq, Repr

/-- Capture group `n` (0-based; Python group `n+1`) as a string. -/
def cap (caps : List (List Char)) (n : Nat) : String := String.mk (caps.getD n [])

/-- login.py:169: the fixed deny-list of system accounts for console logins. -/
def denyList : List String := ["root", "gdm", "lightdm"]

/-- `LoginMonitor._process_line` (login.py:104-176), assuming a callback is
set: ordered matchers, first match wins, at most one event per line. -/
def processLine (line : List Char) : Option LogEvent :=
  match reSearch sshSuccessRE line with
  | some caps =>
    some ⟨.ssh_login, cap caps 0, some (cap caps 1), some (cap caps 2), none, some "success"⟩
  | none =>
    match reSearch sshFailedRE line with
    | some caps =>
      some ⟨.ssh_failed, cap caps 0, some (cap caps 1), some (cap caps 2), none, some "failed"⟩
    | none =>
      match reSearch sudoRE line with
      | some caps =>
        some ⟨.sudo_command, cap caps 0, none, none, some (cap caps 1), none⟩
      | none =>
        match reSearch sessionRE line with
        | some caps =>
          if cap caps 0 ∈ denyList then none
          else some ⟨.console_login, cap caps 0, none, none, none, none⟩
        | none => none

/-!
Log tail source: `LoginMonitor` state and poll cycle (login.py:49-102).
A file observation is `some (inode, content)` when `os.stat` succeeds
(with `content` the file's full byte content at that instant) and `none`
when it raises `FileNotFoundError`.
-/

/-- Python `f.readlines()`: split into lines, each keeping its trailing
newline; a trailing fragment with no newline is returned as a line too. -/
def splitLines : List Char → List (List Char)
  | [] => []
  | c :: s =>
    if c = '\n' then ['\n'] :: splitLines s
    else
      match splitLines s with
      | [] => [[c]]
      | l :: ls => (c :: l) :: ls

/-- The login monitor's cursor: `self.last_position` and `self.last_inode`
(login.py:29-30). -/
structure LMState where
  last_position : Nat
  last_inode : Option Nat
deriving DecidableEq, Repr

/-- `LoginMonitor._check_new_lines` (login.py:74-102).  On a stat failure
the method returns with the cursor untouched.  Otherwise: if the recorded
inode is set and differs from the observed one, the position is reset to
0 (rotation); the file is then read from the resulting position to its
end (`f.seek(pos)` past the end leaves `f.tell()` at `pos`, hence the
`max`), and each complete-or-partial line `readlines` yields is fed to
`_process_line`. -/
def checkNewLines (st : LMState) (obs : Option (Nat × List Char)) :
    LMState × List LogEvent :=
  match obs with
  | none => (st, [])
  | some (ino, content) =>
    let st1 : LMState :=
      match st.last_inode with
      | some j => if ino ≠ j then ⟨0, some ino⟩ else ⟨st.last_position, some ino⟩
      | none => ⟨st.last_position, some ino⟩
    let newLines := splitLines (content.drop st1.last_position)
    (⟨max st1.last_position content.length, st1.last_inode⟩,
     newLines.filterMap processLine)

/-- One iteration of the login monitor loop either runs a poll (`Except.ok`
with the file observation) or raises to the outer handler (`Except.error`,
login.py:70-72). -/
abbrev LoginObs := Except Unit (Option (Nat × List Char))

/-- The login monitor loop (login.py:66-72): each successful cycle is
followed by a 1-unit sleep, each failing cycle by a 5-unit sleep; the
loop never exits.  Returns the final state, all emitted events, and the
sleep durations, one per iteration. -/
def runLogin : LMState → List LoginObs → LMState × List LogEvent × List Nat
  | st, [] => (st, [], [])
  | st, o :: os =>
    let step : LMState × List LogEvent × Nat :=
      match o with
      | .error _ => (st, [], 5)
      | .ok obs =>
        let r := checkNewLines st obs
        (r.1, r.2, 1)
    let rest := runLogin step.1 os
    (rest.1, step.2.1 ++ rest.2.1, step.2.2 :: rest.2.2)

/-- `LoginMonitor.start_monitoring` (login.py:49-72): if the initial stat
or open fails, log and return — the polling loop is never entered.
Otherwise record the inode, seek to end of file, and run the loop. -/
def startMonitoring (initObs : Option (Nat × List Char)) (os : List LoginObs) :
    List LogEvent :=
  match initObs with
  | none => []
  | some (ino, content) => (runLogin ⟨content.length, some ino⟩ os).2.1

/-- Observations of an append-only file: starting from `base`, each cycle
appends one chunk (same inode throughout). -/
def cumObs (ino : Nat) (base : List Char) : List (List Char) → List LoginObs
  | [] => []
  | ch :: rest => .ok (some (ino, base ++ ch)) :: cumObs ino (base ++ ch) rest

/-!
Job status source: `DownloadMonitor` (download.py).
-/

/-- One entry of `self.active_torrents` (download.py:35-45). -/
structure Torrent where
  user_id : String
  room_id : String
  torrent_id : String
  api_key : String
  filename : String
  status : String
  progress : Nat
  links : List String
  notified : Bool
deriving DecidableEq, Repr

/-- The dictionary returned by `RealDebridHandler.get_torrent_downloads`
(realdebrid.py:339-406): that function catches every exception and always
returns either a success record or a failure record with an error string,
so a poll cycle's per-job query never raises. -/
structure QueryResult where
  success : Bool
  error : String
  status : String
  progress : Nat
  links : List String
deriving DecidableEq, Repr

/-- One invocation of the completion callback (download.py:102-106): the
callback receives the owner, the room, and the job's record (with
`notified` already set to true). -/
structure Notif where
  user_id : String
  room_id : String
  data : Torrent
deriving DecidableEq, Repr

/-- `self.active_torrents`: a Python dict, i.e. an association list with
pairwise distinct keys, insertion-ordered. -/
abbrev Jobs := List (String × Torrent)

/-- download.py:34: `key = f-string of user_id, underscore, torrent_id`. -/
def mkKey (u i : String) : String := u ++ "_" ++ i

/-- `DownloadMonitor.add_torrent` (download.py:23-46): dict assignment —
an existing entry for the key is overwritten in place, a new key is
appended. -/
def add_torrent (ts : Jobs) (user_id room_id torrent_id api_key filename : String) : Jobs :=
  let k := mkKey user_id torrent_id
  let v : Torrent :=
    ⟨user_id, room_id, torrent_id, api_key, filename, "downloading", 0, [], false⟩
  if ts.any (fun kt => kt.1 == k) then
    ts.map (fun kt => if kt.1 == k then (k, v) else kt)
  else ts ++ [(k, v)]

/-- `self.active_torrents.get(key)` (download.py:131-134). -/
def lookupKey (ts : Jobs) (k : String) : Option Torrent :=
  (ts.find? (fun kt => kt.1 == k)).map Prod.snd

/-- Python's substring test `pat in s`. -/
def containsSub (pat : List Char) : List Char → Bool
  | [] => pat.isPrefixOf []
  | c :: s => pat.isPrefixOf (c :: s) || containsSub pat s

/-- Outcome of one job's processing inside a poll cycle. -/
inductive ItemStep where
  | keep : Torrent → ItemStep
  | evict404 : ItemStep
  | complete : Torrent → Notif → ItemStep
deriving DecidableEq, Repr

/-- The per-job body of the monitoring loop (download.py:64-108): query the
remote status; on failure evict iff the error mentions 404, otherwise keep
the entry untouched; on success update status/progress/links, and if the
status is "downloaded" and the job was not yet notified, set `notified`,
emit the completion notification, and mark the job for removal. -/
def stepItem (query : String → String → QueryResult) (kt : String × Torrent) : ItemStep :=
  let t := kt.2
  let r := query t.api_key t.torrent_id
  if r.success = false then
    if containsSub "404".data r.error.data then .evict404 else .keep t
  else
    let t1 : Torrent := { t with status := r.status, progress := r.progress, links := r.links }
    if r.status = "downloaded" ∧ t.notified = false then
      let t2 : Torrent := { t1 with notified := true }
      .complete t2 ⟨t.user_id, t.room_id, t2⟩
    else .keep t1

/-- One poll cycle of `DownloadMonitor.start_monitoring` (download.py:58-118):
process every active job in order, then delete the completed and the
not-found ones (deleting after the iteration, as the code does, equals this
per-entry filtering because dict keys are pairwise distinct).  The
completion callback runs inside try/except whose handler only logs
(download.py:101-108), so whether the callback raises — the `_cbRaises`
argument — has no effect on the resulting state or notification list. -/
def pollCycle (query : String → String → QueryResult) (_cbRaises : Notif → Bool) :
    Jobs → Jobs × List Notif
  | [] => ([], [])
  | kt :: rest =>
    let r := pollCycle query _cbRaises rest
    match stepItem query kt with
    | .keep t1 => ((kt.1, t1) :: r.1, r.2)
    | .evict404 => r
    | .complete _ n => (r.1, n :: r.2)

/-- A sequence of poll cycles, each with its own remote behaviour. -/
def runPolls (cbRaises : Notif → Bool) :
    List (String → String → QueryResult) → Jobs → Jobs × List Notif
  | [], ts => (ts, [])
  | q :: qs, ts =>
    let c := pollCycle q cbRaises ts
    let r := runPolls cbRaises qs c.1
    (r.1, c.2 ++ r.2)

/-- One iteration of the download monitor loop either runs a poll cycle or
raises to the outer handler (download.py:123-125). -/
inductive DLObs where
  | raise : DLObs
  | cycle : (String → String → QueryResult) → DLObs

/-- The download monitor loop (download.py:58-125): each successful cycle is
followed by a 30-unit sleep, each failing one by a 10-unit sleep; the loop
never exits.  Returns final jobs, notifications, and the sleeps. -/
def runDownload (cbRaises : Notif → Bool) :
    Jobs → List DLObs → Jobs × List Notif × List Nat
  | ts, [] => (ts, [], [])
  | ts, .raise :: os =>
    let r := runDownload cbRaises ts os
    (r.1, r.2.1, 10 :: r.2.2)
  | ts, .cycle q :: os =>
    let c := pollCycle q cbRaises ts
    let r := runDownload cbRaises c.1 os
    (r.1, c.2 ++ r.2.1, 30 :: r.2.2)

/-- The keys of the active set. -/
def jobKeys (ts : Jobs) : List String := ts.map Prod.fst

/-- Well-formedness of the active set: every key is the one `add_torrent`
derives from the entry's own fields, and keys are pairwise distinct (both
hold for a Python dict populated by `add_torrent`). -/
def WFJobs (ts : Jobs) : Prop :=
  (∀ kt ∈ ts, kt.1 = mkKey kt.2.user_id kt.2.torrent_id) ∧ (jobKeys ts).Nodup

/-- The dict key a notification's snapshot corresponds to. -/
def notifKey (n : Notif) : String := mkKey n.data.user_id n.data.torrent_id

/-- Remote behaviour: every query answers a still-downloading status. -/
def qDownloading : String → String → QueryResult := fun _ _ => ⟨true, "", "downloading", 50, []⟩

/-- Remote behaviour: every query answers the terminal downloaded status. -/
def qDownloaded : String → String → QueryResult :=
  fun _ _ => ⟨true, "", "downloaded", 100, ["link1"]⟩

/-- Remote behaviour: every query fails with the 404 error string built at
realdebrid.py:394. -/
def qNotFound : String → String → QueryResult := fun _ _ => ⟨false, "Error (404)", "", 0, []⟩

/-- A completion callback that never raises. -/
def cbNone : Notif → Bool := fun _ => false

/-- A completion callback that always raises. -/
def cbBoom : Notif → Bool := fun _ => true

/-!
Delay constants of the two monitor loops.
-/

/-- The sleep the login loop performs after one iteration: 5 units after a
failing cycle, 1 unit after a normal one (login.py:69 and login.py:72). -/
def loginDelayOf : LoginObs → Nat
  | .error _ => 5
  | .ok _ => 1

/-- The sleep the download loop performs after one iteration: 10 units
after a failing cycle, 30 units after a normal one (download.py:121 and
download.py:125). -/
def dlDelayOf : DLObs → Nat
  | .raise => 10
  | .cycle _ => 30

/-- The record a registration freshly stores (download.py:35-45). -/
def freshTorrent (u r i a f : String) : Torrent :=
  ⟨u, r, i, a, f, "downloading", 0, [], false⟩

/-- Repeated registrations of the same (owner, job-id) key, with varying
room, credential and filename arguments. -/
def addMany (u i : String) : Jobs → List (String × String × String) → Jobs
  | ts, [] => ts
  | ts, g :: rest => addMany u i (add_torrent ts u g.1 i g.2.1 g.2.2) rest

/-!
Classifier lemmas.
-/

theorem processLine_login {l : List Char} {caps : List (List Char)}
    (h : reSearch sshSuccessRE l = some caps) :
    processLine l =
      some ⟨.ssh_login, cap caps 0, some (cap caps 1), some (cap caps 2), none, some "success"⟩ := by
  unfold processLine
  rw [h]

theorem processLine_no_login {l : List Char} {e : LogEvent}
    (h : reSearch sshSuccessRE l = none) (he : processLine l = some e) :
    e.kind ≠ EventKind.ssh_login := by
  unfold processLine at he
  simp only [h] at he
  split at he
  · cases he; simp
  · split at he
    · cases he; simp
    · split at he
      · split at he
        · cases he
        · cases he; simp
      · cases he

theorem countLogin_filterMap : ∀ lines : List (List Char),
    ((lines.filterMap processLine).countP (fun e => e.kind == EventKind.ssh_login)) =
      lines.countP (fun l => (reSearch sshSuccessRE l).isSome) := by
  intro lines
  induction lines with
  | nil => rfl
  | cons l ls ih =>
    simp only [List.filterMap_cons, List.countP_cons]
    cases h : reSearch sshSuccessRE l with
    | some caps =>
      rw [processLine_login h]
      simp [List.countP_cons, ih]
    | none =>
      cases hp : processLine l with
      | none => simp [ih]
      | some e =>
        have := processLine_no_login h hp
        simp [List.countP_cons, ih, this]

/-!
Structural lemmas about the download monitor's poll cycle.
-/

theorem WFJobs_cons {kt : String × Torrent} {rest : Jobs} :
    WFJobs (kt :: rest) ↔
      kt.1 = mkKey kt.2.user_id kt.2.torrent_id ∧ kt.1 ∉ jobKeys rest ∧ WFJobs rest := by
  unfold WFJobs jobKeys
  simp only [List.forall_mem_cons, List.map_cons, List.nodup_cons]
  tauto

theorem stepItem_ids (q : String → String → QueryResult) (kt : String × Torrent) :
    (∀ t1, stepItem q kt = .keep t1 →
      t1.user_id = kt.2.user_id ∧ t1.torrent_id = kt.2.torrent_id) ∧
    (∀ t2 n, stepItem q kt = .complete t2 n →
      n.data.user_id = kt.2.user_id ∧ n.data.torrent_id = kt.2.torrent_id) := by
  constructor
  · intro t1 h
    simp only [stepItem] at h
    split at h
    · split at h
      · cases h
      · cases h
        exact ⟨rfl, rfl⟩
    · split at h
      · cases h
      · cases h
        exact ⟨rfl, rfl⟩
  · intro t2 n h
    simp only [stepItem] at h
    split at h
    · split at h <;> cases h
    · split at h
      · cases h
        exact ⟨rfl, rfl⟩
      · cases h

theorem pollCycle_keys_sublist (q : String → String → QueryResult) (cb : Notif → Bool) :
    ∀ ts : Jobs, List.Sublist (jobKeys (pollCycle q cb ts).1) (jobKeys ts) := by
  intro ts
  induction ts with
  | nil => simp [pollCycle, jobKeys]
  | cons kt rest ih =>
    simp only [pollCycle]
    cases hs : stepItem q kt with
    | keep t1 =>
      simp only [jobKeys, List.map_cons]
      exact List.Sublist.cons₂ _ ih
    | evict404 => exact List.Sublist.cons _ ih
    | complete t2 n => exact List.Sublist.cons _ ih

theorem pollCycle_wf (q : String → String → QueryResult) (cb : Notif → Bool) :
    ∀ ts : Jobs, WFJobs ts → WFJobs (pollCycle q cb ts).1 := by
  intro ts h
  induction ts with
  | nil => simpa [pollCycle] using h
  | cons kt rest ih =>
    rw [WFJobs_cons] at h
    obtain ⟨hkey, hnmem, hwf⟩ := h
    simp only [pollCycle]
    cases hs : stepItem q kt with
    | keep t1 =>
      rw [WFJobs_cons]
      refine ⟨?_, ?_, ih hwf⟩
      · obtain ⟨hu, hi⟩ := (stepItem_ids q kt).1 t1 hs
        simpa [hu, hi] using hkey
      · intro hm
        exact hnmem ((pollCycle_keys_sublist q cb rest).subset hm)
    | evict404 => exact ih hwf
    | complete t2 n => exact ih hwf

theorem pollCycle_notifs (q : String → String → QueryResult) (cb : Notif → Bool) :
    ∀ ts : Jobs, WFJobs ts → ∀ n ∈ (pollCycle q cb ts).2,
      (∃ kt, kt ∈ ts ∧ notifKey n = kt.1 ∧ ∃ t2, stepItem q kt = .complete t2 n) ∧
        notifKey n ∉ jobKeys (pollCycle q cb ts).1 := by
  intro ts h
  induction ts with
  | nil =>
    intro n hn
    simp [pollCycle] at hn
  | cons kt rest ih =>
    rw [WFJobs_cons] at h
    obtain ⟨hkey, hnmem, hwf⟩ := h
    intro n hn
    simp only [pollCycle] at hn ⊢
    cases hs : stepItem q kt with
    | keep t1 =>
      rw [hs] at hn
      obtain ⟨⟨kt', hmem, hk, t2, hstep⟩, hnotin⟩ := ih hwf n hn
      refine ⟨⟨kt', List.mem_cons_of_mem _ hmem, hk, t2, hstep⟩, ?_⟩
      simp only [jobKeys, List.map_cons, List.mem_cons]
      rintro (hhd | htl)
      · apply hnmem
        rw [← hhd, hk]
        exact List.mem_map_of_mem Prod.fst hmem
      · exact hnotin htl
    | evict404 =>
      rw [hs] at hn
      obtain ⟨⟨kt', hmem, hk, t2, hstep⟩, hnotin⟩ := ih hwf n hn
      exact ⟨⟨kt', List.mem_cons_of_mem _ hmem, hk, t2, hstep⟩, hnotin⟩
    | complete t2 n0 =>
      rw [hs] at hn
      rcases List.mem_cons.mp hn with hn0 | hn'
      · subst hn0
        obtain ⟨hu, hi⟩ := (stepItem_ids q kt).2 t2 n hs
        have hkeq : notifKey n = kt.1 := by
          unfold notifKey
          rw [hu, hi, ← hkey]
        refine ⟨⟨kt, List.mem_cons_self _ _, hkeq, t2, hs⟩, ?_⟩
        rw [hkeq]
        intro hm
        exact hnmem ((pollCycle_keys_sublist q cb rest).subset hm)
      · obtain ⟨⟨kt', hmem, hk, t2', hstep⟩, hnotin⟩ := ih hwf n hn'
        exact ⟨⟨kt', List.mem_cons_of_mem _ hmem, hk, t2', hstep⟩, hnotin⟩

theorem pollCycle_notif_count (q : String → String → QueryResult) (cb : Notif → Bool)
    (k : String) : ∀ ts : Jobs, WFJobs ts →
      ((pollCycle q cb ts).2.countP (fun n => notifKey n == k)) ≤ 1 := by
  intro ts h
  induction ts with
  | nil => simp [pollCycle]
  | cons kt rest ih =>
    rw [WFJobs_cons] at h
    obtain ⟨hkey, hnmem, hwf⟩ := h
    simp only [pollCycle]
    cases hs : stepItem q kt with
    | keep t1 => exact ih hwf
    | evict404 => exact ih hwf
    | complete t2 n0 =>
      rw [List.countP_cons]
      by_cases hc : (notifKey n0 == k) = true
      · have hk0 : k = kt.1 := by
          obtain ⟨hu, hi⟩ := (stepItem_ids q kt).2 t2 n0 hs
          rw [← beq_iff_eq.mp hc]
          unfold notifKey
          rw [hu, hi, ← hkey]
        have hzero : (pollCycle q cb rest).2.countP (fun n => notifKey n == k) = 0 := by
          rw [List.countP_eq_zero]
          intro n hn hnk
          obtain ⟨⟨kt', hmem, hkeq, _, _⟩, _⟩ := pollCycle_notifs q cb rest hwf n hn
          apply hnmem
          rw [← hk0, ← beq_iff_eq.mp hnk, hkeq]
          exact List.mem_map_of_mem Prod.fst hmem
        rw [hzero]
        simp [hc]
      · have := ih hwf
        simp only [hc, if_false, Bool.false_eq_true]
        omega

theorem key_unique (k : String) (a b : Torrent) :
    ∀ ts : Jobs, (jobKeys ts).Nodup → (k, a) ∈ ts → (k, b) ∈ ts → a = b := by
  intro ts
  induction ts with
  | nil =>
    intro _ ha
    cases ha
  | cons kt rest ih =>
    intro hnd ha hb
    rw [show jobKeys (kt :: rest) = kt.1 :: jobKeys rest from rfl, List.nodup_cons] at hnd
    obtain ⟨hne, hnd2⟩ := hnd
    rcases List.mem_cons.mp ha with ha1 | ha2
    · rcases List.mem_cons.mp hb with hb1 | hb2
      · rw [← ha1] at hb1
        exact ((Prod.ext_iff.mp hb1).2).symm
      · exfalso
        apply hne
        rw [← ha1]
        exact List.mem_map.mpr ⟨(k, b), hb2, rfl⟩
    · rcases List.mem_cons.mp hb with hb1 | hb2
      · exfalso
        apply hne
        rw [← hb1]
        exact List.mem_map.mpr ⟨(k, a), ha2, rfl⟩
      · exact ih hnd2 ha2 hb2

theorem pollCycle_evicts (q : String → String → QueryResult) (cb : Notif → Bool) :
    ∀ (ts : Jobs) (k : String) (t : Torrent), WFJobs ts → (k, t) ∈ ts →
      stepItem q (k, t) = .evict404 → k ∉ jobKeys (pollCycle q cb ts).1 := by
  intro ts
  induction ts with
  | nil =>
    intro k t _ hm
    cases hm
  | cons kt rest ih =>
    intro k t hwf hm hstep
    rw [WFJobs_cons] at hwf
    obtain ⟨hkey, hnmem, hwf2⟩ := hwf
    rcases List.mem_cons.mp hm with hm1 | hm2
    · subst hm1
      simp only [pollCycle, hstep]
      intro hmem
      exact hnmem ((pollCycle_keys_sublist q cb rest).subset hmem)
    · have hk_in : k ∈ jobKeys rest := List.mem_map.mpr ⟨(k, t), hm2, rfl⟩
      have hne : k ≠ kt.1 := fun he => hnmem (he ▸ hk_in)
      simp only [pollCycle]
      cases hs : stepItem q kt with
      | keep t1 =>
        simp only [jobKeys, List.map_cons, List.mem_cons]
        rintro (hhd | htl)
        · exact hne hhd
        · exact ih k t hwf2 hm2 hstep htl
      | evict404 => exact ih k t hwf2 hm2 hstep
      | complete t2 n0 => exact ih k t hwf2 hm2 hstep

theorem runPolls_keys_subset (cb : Notif → Bool) :
    ∀ (qs : List (String → String → QueryResult)) (ts : Jobs),
      jobKeys (runPolls cb qs ts).1 ⊆ jobKeys ts := by
  intro qs
  induction qs with
  | nil =>
    intro ts
    simp [runPolls]
  | cons q qs ih =>
    intro ts
    simp only [runPolls]
    exact (ih _).trans (pollCycle_keys_sublist q cb ts).subset

theorem runPolls_wf (cb : Notif → Bool) :
    ∀ (qs : List (String → String → QueryResult)) (ts : Jobs),
      WFJobs ts → WFJobs (runPolls cb qs ts).1 := by
  intro qs
  induction qs with
  | nil =>
    intro ts h
    exact h
  | cons q qs ih =>
    intro ts h
    exact ih _ (pollCycle_wf q cb ts h)

theorem runPolls_notif_key (cb : Notif → Bool) :
    ∀ (qs : List (String → String → QueryResult)) (ts : Jobs), WFJobs ts →
      ∀ n ∈ (runPolls cb qs ts).2, notifKey n ∈ jobKeys ts := by
  intro qs
  induction qs with
  | nil =>
    intro ts _ n hn
    simp [runPolls] at hn
  | cons q qs ih =>
    intro ts h n hn
    simp only [runPolls, List.mem_append] at hn
    rcases hn with hn | hn
    · obtain ⟨⟨kt, hmem, hkeq, _, _⟩, _⟩ := pollCycle_notifs q cb ts h n hn
      rw [hkeq]
      exact List.mem_map_of_mem Prod.fst hmem
    · have := ih _ (pollCycle_wf q cb ts h) n hn
      exact (pollCycle_keys_sublist q cb ts).subset this

theorem runPolls_notif_count (cb : Notif → Bool) (k : String) :
    ∀ (qs : List (String → String → QueryResult)) (ts : Jobs), WFJobs ts →
      ((runPolls cb qs ts).2.countP (fun n => notifKey n == k)) ≤ 1 := by
  intro qs
  induction qs with
  | nil =>
    intro ts _
    simp [runPolls]
  | cons q qs ih =>
    intro ts h
    simp only [runPolls, List.countP_append]
    rcases Nat.eq_zero_or_pos ((pollCycle q cb ts).2.countP (fun n => notifKey n == k)) with
      h0 | hpos
    · rw [h0]
      simpa using ih _ (pollCycle_wf q cb ts h)
    · obtain ⟨n, hn, hnk⟩ := List.countP_pos_iff.mp hpos
      have hout : notifKey n ∉ jobKeys (pollCycle q cb ts).1 :=
        (pollCycle_notifs q cb ts h n hn).2
      have hrest : ((runPolls cb qs (pollCycle q cb ts).1).2.countP
          (fun m => notifKey m == k)) = 0 := by
        rw [List.countP_eq_zero]
        intro m hm hmk
        apply hout
        rw [beq_iff_eq.mp hnk, ← beq_iff_eq.mp hmk]
        exact runPolls_notif_key cb qs _ (pollCycle_wf q cb ts h) m hm
      have hcyc := pollCycle_notif_count q cb k ts h
      omega

/-!
Claim theorems for the job status source.
-/

/-- C1: a notified job is evicted in the very cycle that notified it, for
every callback behaviour — raising or not (first conjunct); across any
sequence of poll cycles each job key receives at most one completion
notification, so `notified` effectively transitions false to true at most
once (second conjunct); and a job polled as downloading, downloading,
downloaded — here with an always-raising callback — produces exactly one
notification and is absent from the active set afterwards (third
conjunct). -/
theorem C1_notify_exactly_once :
    (∀ q cb ts, WFJobs ts → ∀ n ∈ (pollCycle q cb ts).2,
      notifKey n ∉ jobKeys (pollCycle q cb ts).1) ∧
    (∀ cb qs ts k, WFJobs ts →
      ((runPolls cb qs ts).2.countP (fun n => notifKey n == k)) ≤ 1) ∧
    runPolls cbBoom [qDownloading, qDownloading, qDownloaded]
        (add_torrent [] "u" "r" "t1" "k" "f") =
      ([], [⟨"u", "r", ⟨"u", "r", "t1", "k", "f", "downloaded", 100, ["link1"], true⟩⟩]) :=
  ⟨fun q cb ts h n hn => (pollCycle_notifs q cb ts h n hn).2,
   fun cb qs ts k h => runPolls_notif_count cb k qs ts h,
   by decide⟩

/-- Witness for C1: the at-most-once bound evaluated on a concrete run in
which every poll reports the terminal status and the callback raises. -/
theorem C1_notify_exactly_once_witness :
    ((runPolls cbBoom [qDownloaded, qDownloaded]
        (add_torrent [] "u" "r" "t1" "k" "f")).2.countP
      (fun n => notifKey n == mkKey "u" "t1")) ≤ 1 :=
  C1_notify_exactly_once.2.1 cbBoom [qDownloaded, qDownloaded]
    (add_torrent [] "u" "r" "t1" "k" "f") (mkKey "u" "t1") (by unfold WFJobs; decide)

/-- C4: when a job's status query fails with an error mentioning 404 (the
not-found condition), the job is evicted from the active set in that same
cycle, it is still absent after any further cycles, and no notification
for it is ever emitted over the whole run — absence is not success. -/
theorem C4_notfound_evicted_silently :
    ∀ q cb ts k t qs, WFJobs ts → (k, t) ∈ ts →
      (q t.api_key t.torrent_id).success = false →
      containsSub "404".data (q t.api_key t.torrent_id).error.data = true →
      k ∉ jobKeys (pollCycle q cb ts).1 ∧
      k ∉ jobKeys (runPolls cb (q :: qs) ts).1 ∧
      ∀ n ∈ (runPolls cb (q :: qs) ts).2, notifKey n ≠ k := by
  intro q cb ts k t qs hwf hmem hfail h404
  have hstep : stepItem q (k, t) = .evict404 := by
    simp only [stepItem, hfail, h404]
    simp
  have h1 := pollCycle_evicts q cb ts k t hwf hmem hstep
  refine ⟨h1, ?_, ?_⟩
  · intro hk
    apply h1
    have hsub : jobKeys (runPolls cb (q :: qs) ts).1 ⊆
        jobKeys (pollCycle q cb ts).1 := by
      simp only [runPolls]
      exact runPolls_keys_subset cb qs _
    exact hsub hk
  · intro n hn hkeq
    simp only [runPolls, List.mem_append] at hn
    rcases hn with hn | hn
    · obtain ⟨⟨kt', hmem', hk', t2, hstep'⟩, _⟩ := pollCycle_notifs q cb ts hwf n hn
      have hkt : kt'.1 = k := by rw [← hk', hkeq]
      have hmem2 : (k, kt'.2) ∈ ts := by
        rw [← hkt]
        exact hmem'
      have ht : kt'.2 = t := key_unique k kt'.2 t ts hwf.2 hmem2 hmem
      rw [show kt' = (k, t) from by rw [← hkt, ← ht]] at hstep'
      rw [hstep] at hstep'
      cases hstep'
    · have := runPolls_notif_key cb qs _ (pollCycle_wf q cb ts hwf) n hn
      exact h1 (hkeq ▸ this)

/-- Witness for C4: one 404 cycle on a single registered job evicts it. -/
theorem C4_notfound_evicted_silently_witness :
    mkKey "u" "t1" ∉
      jobKeys (pollCycle qNotFound cbBoom (add_torrent [] "u" "r" "t1" "k" "f")).1 :=
  (C4_notfound_evicted_silently qNotFound cbBoom (add_torrent [] "u" "r" "t1" "k" "f")
      (mkKey "u" "t1") ⟨"u", "r", "t1", "k", "f", "downloading", 0, [], false⟩ []
      (by unfold WFJobs; decide) (by decide) (by decide) (by decide)).1

/-!
Lookup lemmas for registration.
-/

theorem find_after_overwrite (k : String) (v : Torrent) :
    ∀ ts : Jobs, ts.any (fun kt => kt.1 == k) = true →
      (ts.map (fun kt => if kt.1 == k then (k, v) else kt)).find? (fun kt => kt.1 == k) =
        some (k, v) := by
  intro ts h
  induction ts with
  | nil => simp at h
  | cons kt rest ih =>
    simp only [List.any_cons, Bool.or_eq_true] at h
    rw [List.map_cons]
    by_cases hk : (kt.1 == k) = true
    · rw [if_pos hk]
      exact List.find?_cons_of_pos _ (by simp)
    · rw [if_neg hk, List.find?_cons_of_neg (p := fun x : String × Torrent => x.1 == k) _ hk]
      exact ih (h.resolve_left hk)

theorem find_after_append (k : String) (v : Torrent) :
    ∀ ts : Jobs, ts.any (fun kt => kt.1 == k) = false →
      (ts ++ [(k, v)]).find? (fun kt => kt.1 == k) = some (k, v) := by
  intro ts h
  induction ts with
  | nil => simp [List.find?]
  | cons kt rest ih =>
    simp only [List.any_cons, Bool.or_eq_false_iff] at h
    rw [List.cons_append, List.find?_cons_of_neg _ (by simp [h.1])]
    exact ih h.2

/-!
Claim theorems for the log tail source and the classifier.
-/

/-- C7: the classifier tries its matchers in the fixed order ssh accepted,
ssh failed, sudo command, systemd session, and emits at most one event per
line — the one built by the first matcher that matches; lines matched by
no pattern emit nothing; and the example line yields exactly one event, of
kind ssh_login with user alice, ip 10.0.0.5 and port 22. -/
theorem C7_classifier_first_match :
    processLine ("Nov 7 17:00:00 host sshd[123]: Accepted password for alice from 10.0.0.5 port 22".data) =
      some ⟨.ssh_login, "alice", some "10.0.0.5", some "22", none, some "success"⟩ ∧
    (∀ l e e', processLine l = some e → processLine l = some e' → e = e') ∧
    (∀ l caps, reSearch sshSuccessRE l = some caps →
      processLine l =
        some ⟨.ssh_login, cap caps 0, some (cap caps 1), some (cap caps 2), none, some "success"⟩) ∧
    (∀ l caps, reSearch sshSuccessRE l = none → reSearch sshFailedRE l = some caps →
      processLine l =
        some ⟨.ssh_failed, cap caps 0, some (cap caps 1), some (cap caps 2), none, some "failed"⟩) ∧
    (∀ l caps, reSearch sshSuccessRE l = none → reSearch sshFailedRE l = none →
      reSearch sudoRE l = some caps →
      processLine l = some ⟨.sudo_command, cap caps 0, none, none, some (cap caps 1), none⟩) ∧
    (∀ l, reSearch sshSuccessRE l = none → reSearch sshFailedRE l = none →
      reSearch sudoRE l = none → reSearch sessionRE l = none → processLine l = none) := by
  refine ⟨by decide, ?_, ?_, ?_, ?_, ?_⟩
  · intro l e e' h h'
    rw [h] at h'
    exact Option.some.inj h'
  · intro l caps h
    exact processLine_login h
  · intro l caps h1 h2
    unfold processLine
    simp only [h1, h2]
  · intro l caps h1 h2 h3
    unfold processLine
    simp only [h1, h2, h3]
  · intro l h1 h2 h3 h4
    unfold processLine
    simp only [h1, h2, h3, h4]

/-- Witness for C7: the second matcher fires on a concrete failed-login
line with an invalid-user marker. -/
theorem C7_classifier_first_match_witness :
    processLine ("Nov 7 17:00:01 host sshd[124]: Failed password for invalid user bob from 1.2.3.4 port 5555".data) =
      some ⟨.ssh_failed, cap ["bob".data, "1.2.3.4".data, "5555".data] 0,
        some (cap ["bob".data, "1.2.3.4".data, "5555".data] 1),
        some (cap ["bob".data, "1.2.3.4".data, "5555".data] 2), none, some "failed"⟩ :=
  C7_classifier_first_match.2.2.2.1 _ ["bob".data, "1.2.3.4".data, "5555".data]
    (by decide) (by decide)

/-- C8: for a line the session matcher classifies (the three earlier
matchers do not match and the systemd-logind new-session pattern extracts
user `u`), a console_login event carrying only the user is emitted iff the
user is not in the fixed deny-list of system accounts; for a deny-listed
user (e.g. root) nothing is emitted at all. -/
theorem C8_console_login_denylist :
    ∀ l u, reSearch sshSuccessRE l = none → reSearch sshFailedRE l = none →
      reSearch sudoRE l = none → reSearch sessionRE l = some [u] →
      (processLine l = some ⟨.console_login, String.mk u, none, none, none, none⟩ ↔
        String.mk u ∉ denyList) ∧
      (String.mk u ∈ denyList → processLine l = none) := by
  intro l u h1 h2 h3 h4
  unfold processLine
  simp only [h1, h2, h3, h4]
  have hc : cap [u] 0 = String.mk u := rfl
  rw [hc]
  by_cases hm : String.mk u ∈ denyList
  · simp [hm]
  · simp [hm]

/-- Witness for C8 at a concrete console login of a non-system user. -/
theorem C8_console_login_denylist_witness :
    (processLine ("Nov 7 17:00:03 host systemd-logind[55]: New session 3 of user dave".data) =
        some ⟨.console_login, String.mk "dave".data, none, none, none, none⟩ ↔
      String.mk "dave".data ∉ denyList) ∧
    (String.mk "dave".data ∈ denyList →
      processLine ("Nov 7 17:00:03 host systemd-logind[55]: New session 3 of user dave".data) = none) :=
  C8_console_login_denylist _ "dave".data (by decide) (by decide) (by decide) (by decide)

theorem lookupKey_add (ts : Jobs) (u r i a f : String) :
    lookupKey (add_torrent ts u r i a f) (mkKey u i) =
      some ⟨u, r, i, a, f, "downloading", 0, [], false⟩ := by
  unfold add_torrent lookupKey
  by_cases h : ts.any (fun kt => kt.1 == mkKey u i)
  · simp only [h, if_true]
    rw [find_after_overwrite _ _ ts h]
    rfl
  · simp only [Bool.not_eq_true] at h
    simp only [h, Bool.false_eq_true, if_false]
    rw [find_after_append _ _ ts h]
    rfl

/-- C9: `add_torrent` unconditionally overwrites any entry for its key
with a fresh record whose status is "downloading", progress 0, links
empty and `notified` false — re-registering a key discards all previously
cached status, including the `notified` deduplication flag. -/
theorem C9_add_torrent_overwrites :
    ∀ ts u r i a f,
      lookupKey (add_torrent ts u r i a f) (mkKey u i) =
        some ⟨u, r, i, a, f, "downloading", 0, [], false⟩ := by
  intro ts u r i a f
  exact lookupKey_add ts u r i a f

/-- C10: if the initial stat or open of the log file fails,
`start_monitoring` returns before entering the polling loop, so no events
are ever emitted no matter what later observations would have shown — the
startup failure is not retried; by contrast a stat failure inside the loop
(second conjunct) skips that one cycle and the loop continues. -/
theorem C10_startup_failure_not_retried :
    (∀ os, startMonitoring none os = []) ∧
    (∀ st os, runLogin st (Except.ok none :: os) =
      ((runLogin st os).1, (runLogin st os).2.1, 1 :: (runLogin st os).2.2)) := by
  constructor
  · intro os
    rfl
  · intro st os
    simp [runLogin, checkNewLines]

/-- C6 counterexample: the login monitor loop sleeps 5 units after a
failing cycle but only 1 unit after a normal one, so its retry delay is
not shorter than its normal inter-cycle delay. -/
theorem C6_counterexample_login_delay :
    (runLogin ⟨0, some 1⟩ [Except.error ()]).2.2 = [5] ∧
    (runLogin ⟨0, some 1⟩ [Except.ok none]).2.2 = [1] ∧
    ¬ ((runLogin ⟨0, some 1⟩ [Except.error ()]).2.2.headD 0 <
        (runLogin ⟨0, some 1⟩ [Except.ok none]).2.2.headD 0) := by
  decide

/-- C6 amended: both loops absorb any cycle failure and keep running —
over any finite list of iteration outcomes each iteration, failing or
not, ends in a sleep and the loop proceeds to the next one; the failure
never escapes.  A failing download cycle sleeps 10 units, shorter than
its normal 30; a failing login cycle sleeps 5 units, which is longer —
not shorter — than its normal 1. -/
theorem C6_error_barrier :
    (∀ st os, (runLogin st os).2.2 = os.map loginDelayOf) ∧
    (∀ cb ts os, (runDownload cb ts os).2.2 = os.map dlDelayOf) ∧
    dlDelayOf .raise < dlDelayOf (.cycle qDownloading) ∧
    loginDelayOf (Except.ok none) < loginDelayOf (Except.error ()) := by
  refine ⟨?_, ?_, by decide, by decide⟩
  · intro st os
    induction os generalizing st with
    | nil => rfl
    | cons o os ih =>
      cases o <;> simp [runLogin, loginDelayOf, ih]
  · intro cb ts os
    induction os generalizing ts with
    | nil => rfl
    | cons o os ih =>
      cases o <;> simp [runDownload, dlDelayOf, ih]

/-- C3: (a) with an unchanged inode the cycle reads from the stored offset
and the offset is never reset (it becomes the max of the stored offset and
the file length); (b) with a changed inode — rotation — the cycle resets
the offset and reads the new file from offset 0, its output a function of
the new file's content alone, so unread bytes of the old file are never
emitted; (c) when the stat fails, the cycle returns with both offset and
inode unchanged and emits nothing. -/
theorem C3_offset_reset_iff_rotation :
    ∀ st ino content j, st.last_inode = some j →
      ((ino = j →
        checkNewLines st (some (ino, content)) =
          (⟨max st.last_position content.length, some ino⟩,
            (splitLines (content.drop st.last_position)).filterMap processLine)) ∧
        (ino ≠ j →
          checkNewLines st (some (ino, content)) =
            (⟨content.length, some ino⟩, (splitLines content).filterMap processLine))) ∧
      checkNewLines st none = (st, []) := by
  intro st ino content j hj
  refine ⟨⟨?_, ?_⟩, rfl⟩
  · intro he
    subst he
    simp [checkNewLines, hj]
  · intro hne
    simp [checkNewLines, hj, hne]

/-- Witness for C3 at a concrete rotation: old offset 7, old inode 3, new
inode 4, new content of length 3 — the read restarts at 0. -/
theorem C3_offset_reset_iff_rotation_witness :
    checkNewLines ⟨7, some 3⟩ (some (4, "ab\n".data)) =
      (⟨"ab\n".data.length, some 4⟩, (splitLines "ab\n".data).filterMap processLine) :=
  (C3_offset_reset_iff_rotation ⟨7, some 3⟩ 4 "ab\n".data 3 rfl).1.2 (by decide)

/-!
Registration idempotence.
-/

theorem any_key_eq_mem (ts : Jobs) (k : String) :
    ts.any (fun kt => kt.1 == k) = true ↔ k ∈ jobKeys ts := by
  rw [List.any_eq_true]
  constructor
  · rintro ⟨kt, hm, hk⟩
    rw [← beq_iff_eq.mp hk]
    exact List.mem_map_of_mem Prod.fst hm
  · intro hm
    obtain ⟨kt, hm2, hk⟩ := List.mem_map.mp hm
    exact ⟨kt, hm2, beq_iff_eq.mpr hk⟩

theorem jobKeys_add (ts : Jobs) (u r i a f : String) :
    jobKeys (add_torrent ts u r i a f) =
      if ts.any (fun kt => kt.1 == mkKey u i) then jobKeys ts
      else jobKeys ts ++ [mkKey u i] := by
  unfold add_torrent jobKeys
  by_cases h : ts.any (fun kt => kt.1 == mkKey u i)
  · simp only [h, if_true, List.map_map]
    apply List.map_congr_left
    intro kt _
    by_cases hk : (kt.1 == mkKey u i) = true
    · simp only [Function.comp_apply, hk, if_true]
      exact (beq_iff_eq.mp hk).symm
    · simp only [Function.comp_apply, hk, if_false, Bool.false_eq_true]
  · simp [h]

theorem nodup_add (ts : Jobs) (u r i a f : String) (h : (jobKeys ts).Nodup) :
    (jobKeys (add_torrent ts u r i a f)).Nodup := by
  rw [jobKeys_add]
  by_cases ha : ts.any (fun kt => kt.1 == mkKey u i)
  · simpa [ha] using h
  · have hnm : mkKey u i ∉ jobKeys ts := fun hm => ha ((any_key_eq_mem ts _).mpr hm)
    simp [ha, List.nodup_append, h, hnm]

theorem count_key_add (ts : Jobs) (u r i a f : String) (hnd : (jobKeys ts).Nodup) :
    (jobKeys (add_torrent ts u r i a f)).count (mkKey u i) = 1 := by
  rw [jobKeys_add]
  by_cases ha : ts.any (fun kt => kt.1 == mkKey u i)
  · rw [if_pos ha]
    exact List.count_eq_one_of_mem hnd ((any_key_eq_mem ts _).mp ha)
  · rw [if_neg ha, List.count_append]
    have hnm : mkKey u i ∉ jobKeys ts := fun hm => ha ((any_key_eq_mem ts _).mpr hm)
    rw [List.count_eq_zero.mpr hnm]
    simp

/-- C5: registration is idempotent by key — for any starting dict and any
nonempty sequence of registrations of the same (owner, job-id) pair,
exactly one active entry for that key remains, holding the field values of
the last registration (last write wins). -/
theorem C5_register_idempotent :
    ∀ (ts : Jobs) (u i : String) (g : String × String × String)
      (rest : List (String × String × String)), (jobKeys ts).Nodup →
      (jobKeys (addMany u i ts (g :: rest))).count (mkKey u i) = 1 ∧
      lookupKey (addMany u i ts (g :: rest)) (mkKey u i) =
        some (freshTorrent u ((g :: rest).getLast (List.cons_ne_nil g rest)).1 i
          ((g :: rest).getLast (List.cons_ne_nil g rest)).2.1
          ((g :: rest).getLast (List.cons_ne_nil g rest)).2.2) := by
  intro ts u i g rest
  induction rest generalizing ts g with
  | nil =>
    intro hnd
    constructor
    · exact count_key_add ts u g.1 i g.2.1 g.2.2 hnd
    · exact lookupKey_add ts u g.1 i g.2.1 g.2.2
  | cons g2 rest2 ih =>
    intro hnd
    have step := ih (add_torrent ts u g.1 i g.2.1 g.2.2) g2
      (nodup_add ts u g.1 i g.2.1 g.2.2 hnd)
    simpa only [addMany, List.getLast_cons (List.cons_ne_nil g2 rest2)] using step

/-- Witness for C5: registering the same key twice leaves one entry with
the second registration's values. -/
theorem C5_register_idempotent_witness :
    (jobKeys (addMany "u" "t1" [] [("r1", "k1", "f1"), ("r2", "k2", "f2")])).count
        (mkKey "u" "t1") = 1 ∧
    lookupKey (addMany "u" "t1" [] [("r1", "k1", "f1"), ("r2", "k2", "f2")]) (mkKey "u" "t1") =
      some (freshTorrent "u"
        (([("r1", "k1", "f1"), ("r2", "k2", "f2")] :
            List (String × String × String)).getLast (List.cons_ne_nil _ _)).1 "t1"
        (([("r1", "k1", "f1"), ("r2", "k2", "f2")] :
            List (String × String × String)).getLast (List.cons_ne_nil _ _)).2.1
        (([("r1", "k1", "f1"), ("r2", "k2", "f2")] :
            List (String × String × String)).getLast (List.cons_ne_nil _ _)).2.2) :=
  C5_register_idempotent [] "u" "t1" ("r1", "k1", "f1") [("r2", "k2", "f2")] (by decide)

/-!
Line-splitting across poll cycles.
-/

theorem splitLines_ne_nil : ∀ s : List Char, s ≠ [] → splitLines s ≠ [] := by
  intro s h
  cases s with
  | nil => exact absurd rfl h
  | cons c s2 =>
    simp only [splitLines]
    split
    · simp
    · split <;> simp

theorem splitLines_append : ∀ t u : List Char,
    splitLines ((t ++ ['\n']) ++ u) = splitLines (t ++ ['\n']) ++ splitLines u := by
  intro t
  induction t with
  | nil =>
    intro u
    simp [splitLines]
  | cons c t2 ih =>
    intro u
    by_cases hc : c = '\n'
    · subst hc
      simp only [List.cons_append, splitLines, List.append_eq]
      rw [ih u]
      simp
    · simp only [List.cons_append, splitLines, if_neg hc, List.append_eq]
      rw [ih u]
      cases hsp : splitLines (t2 ++ ['\n']) with
      | nil => exact absurd hsp (splitLines_ne_nil _ (by simp))
      | cons l ls => simp

/-- C2 counterexample: `readlines` plus `tell` consume a partial trailing
line.  Appending one accepted-login line split mid-line across two poll
cycles: the first cycle consumes the 10-byte fragment (the offset advances
to 10 instead of staying at 0), and the two cycles together emit 0
ssh_login events although the appended bytes contain exactly 1 line
matching the accepted-login grammar. -/
theorem C2_counterexample_partial_line :
    (checkNewLines ⟨0, some 1⟩ (some (1, "sshd[7]: A".data))).1.last_position = 10 ∧
    ((runLogin ⟨0, some 1⟩
        [.ok (some (1, "sshd[7]: A".data)),
         .ok (some (1, "sshd[7]: Accepted password for alice from 10.0.0.5 port 22\n".data))]).2.1.countP
      (fun e => e.kind == EventKind.ssh_login)) = 0 ∧
    ((splitLines "sshd[7]: Accepted password for alice from 10.0.0.5 port 22\n".data).countP
      (fun l => (reSearch sshSuccessRE l).isSome)) = 1 :=
  ⟨by decide, by decide, by decide⟩

/-- C2 amended: `_check_new_lines` consumes all available bytes, including
a partial trailing line — after a poll the offset equals the file length
(first conjunct).  When every append consists of whole newline-terminated
lines, so that no partial line is ever visible at a cycle boundary, the
number of ssh_login events emitted over any number of poll cycles equals
the number of appended lines matching the accepted-login grammar, each
line counted exactly once (second conjunct). -/
theorem C2_whole_line_counting :
    (∀ pos ino content, pos ≤ content.length →
      (checkNewLines ⟨pos, some ino⟩ (some (ino, content))).1.last_position =
        content.length) ∧
    (∀ ino base chunks, (∀ ch ∈ chunks, ch = [] ∨ ∃ t2, ch = t2 ++ ['\n']) →
      ((runLogin ⟨base.length, some ino⟩ (cumObs ino base chunks)).2.1.countP
          (fun e => e.kind == EventKind.ssh_login)) =
        (splitLines chunks.flatten).countP
          (fun l => (reSearch sshSuccessRE l).isSome)) := by
  constructor
  · intro pos ino content h
    simp [checkNewLines, Nat.max_eq_right h]
  · intro ino base chunks
    induction chunks generalizing base with
    | nil =>
      intro _
      simp [cumObs, runLogin, splitLines]
    | cons ch rest ih =>
      intro hall
      have hcnl : checkNewLines ⟨base.length, some ino⟩ (some (ino, base ++ ch)) =
          (⟨(base ++ ch).length, some ino⟩, (splitLines ch).filterMap processLine) := by
        have hb : base.length ≤ (base ++ ch).length := by simp
        simp [checkNewLines, List.drop_left, Nat.max_eq_right hb]
      simp only [cumObs, runLogin, hcnl]
      rw [List.countP_append, countLogin_filterMap]
      have hrest := ih (base ++ ch) (fun c hc => hall c (List.mem_cons_of_mem _ hc))
      rw [hrest]
      rcases hall ch (List.mem_cons_self _ _) with hch | ⟨t2, hch⟩
      · subst hch
        simp [splitLines]
      · subst hch
        rw [List.flatten_cons, splitLines_append, List.countP_append]

/-- Witness for C2: one cycle appending the whole line `x` newline. -/
theorem C2_whole_line_counting_witness :
    (checkNewLines ⟨0, some 1⟩ (some (1, "x\n".data))).1.last_position =
      ("x\n".data).length ∧
    ((runLogin ⟨([] : List Char).length, some 1⟩
        (cumObs 1 [] ["x\n".data])).2.1.countP
        (fun e => e.kind == EventKind.ssh_login)) =
      (splitLines (["x\n".data] : List (List Char)).flatten).countP
        (fun l => (reSearch sshSuccessRE l).isSome) :=
  ⟨C2_whole_line_counting.1 0 1 "x\n".data (by decide),
   C2_whole_line_counting.2 1 [] ["x\n".data] (by
      intro ch hch
      rw [List.mem_singleton] at hch
      subst hch
      right
      exact ⟨"x".data, by decide⟩)⟩

end Matrixbot
